import Mathlib

/-!
Verification of the NW.js update automator (`nwjs_automator.py`).

The development shallowly embeds the decision logic of the script:

* the manifest validator `validate_and_fix_package_json` (lines 106-136),
  over a small JSON value type, together with the two-space-indent
  serializer modelling `json.dump(..., indent=2, ensure_ascii=False)`;
* the download URL construction `get_nwjs_download_url` (lines 138-172);
* the backup step `backup_game` (lines 215-226);
* the preserve step `save_important_files` (lines 228-268);
* the wipe step `clean_game_directory` (lines 270-287);
* the entry-point synthesizer `create_basic_index_html` (lines 343-430);
* the executable rename `rename_executable` (lines 457-503);
* the pipeline `process_game` (lines 595-652) as a deterministic
  function from an environment (describing the filesystem and the
  outcome of fallible OS calls) to a trace of filesystem events and a
  final pass/fail result.

Filesystems are modelled as association lists of names; machine-level
failure modes (a copy raising, a removal being refused) are oracle
booleans in the environment, mirroring the `try`/`except` structure of
the source.
-/

/-- JSON values as produced by `json.load`.  Numeric leaves are modelled
as integers; the fields of an object keep their textual order, as Python
dictionaries do. -/
inductive JsonVal where
  | str : String → JsonVal
  | num : Int → JsonVal
  | bool : Bool → JsonVal
  | null : JsonVal
  | arr : List JsonVal → JsonVal
  | obj : List (String × JsonVal) → JsonVal

/-- Python truthiness of a JSON value: `not package_data['name']`
(line 122 of the source) is true exactly on these values. -/
def isFalsy : JsonVal → Bool
  | .str s => s == ""
  | .num n => n == 0
  | .bool b => !b
  | .null => true
  | .arr xs => xs.isEmpty
  | .obj fs => fs.isEmpty

/-- Field lookup in an object, first occurrence. -/
def lookupKey (d : List (String × JsonVal)) (k : String) : Option JsonVal :=
  (d.find? (fun e => e.1 == k)).map (fun e => e.2)

/-- Dictionary assignment `d[k] = v`: updates the key in place if it is
present (keeping its position), appends it at the end otherwise. -/
def setKey (d : List (String × JsonVal)) (k : String) (v : JsonVal) :
    List (String × JsonVal) :=
  if d.any (fun e => e.1 == k) then
    d.map (fun e => if e.1 == k then (k, v) else e)
  else d ++ [(k, v)]

/-- The identifier derived from the directory name, line 123 of the
source: `game_path.name.replace(' ', '-').lower()`.  Both operations act
character by character. -/
def derivedName (s : String) : String :=
  String.mk (s.data.map (fun c => if c == ' ' then '-' else c.toLower))

/-- The condition of line 122: `'name' not in package_data or not
package_data['name']`. -/
def needsNameFix (d : List (String × JsonVal)) : Bool :=
  match lookupKey d "name" with
  | none => true
  | some v => isFalsy v

/-- `validate_and_fix_package_json` on the parsed document (lines
118-127): returns the possibly corrected document and the `fixes_made`
flag. -/
def validate_and_fix_package_json (d : List (String × JsonVal))
    (dirName : String) : List (String × JsonVal) × Bool :=
  if needsNameFix d then
    (setKey d "name" (JsonVal.str (derivedName dirName)), true)
  else (d, false)

/-- Indentation padding: `2 * lvl` spaces, as `json.dump(..., indent=2)`
produces. -/
def pad (lvl : Nat) : String :=
  String.mk (List.replicate (2 * lvl) ' ')

/-- String escaping of `json.dump(..., ensure_ascii=False)`, restricted
to the escapes that can occur in manifests. -/
def escapeChar (c : Char) : String :=
  if c == '"' then "\\\""
  else if c == '\\' then "\\\\"
  else if c == '\n' then "\\n"
  else if c == '\t' then "\\t"
  else if c == '\r' then "\\r"
  else String.singleton c

/-- Escape a whole string. -/
def escapeStr (s : String) : String :=
  String.join (s.data.map escapeChar)

/-- A quoted JSON string literal. -/
def quoteStr (s : String) : String :=
  "\"" ++ escapeStr s ++ "\""

mutual

/-- The two-space-indent pretty printer of `json.dump(package_data, f,
indent=2, ensure_ascii=False)` (line 132). -/
def dumpJson : Nat → JsonVal → String
  | _, .str s => quoteStr s
  | _, .num n => toString n
  | _, .bool b => if b then "true" else "false"
  | _, .null => "null"
  | _, .arr [] => "[]"
  | lvl, .arr (x :: xs) =>
      "[\n" ++ dumpArrItems (lvl + 1) (x :: xs) ++ "\n" ++ pad lvl ++ "]"
  | _, .obj [] => "\x7b\x7d"
  | lvl, .obj (f :: fs) =>
      "\x7b\n" ++ dumpObjFields (lvl + 1) (f :: fs) ++ "\n" ++ pad lvl ++ "\x7d"

/-- Comma-and-newline separated array items. -/
def dumpArrItems : Nat → List JsonVal → String
  | _, [] => ""
  | lvl, [x] => pad lvl ++ dumpJson lvl x
  | lvl, x :: y :: xs =>
      pad lvl ++ dumpJson lvl x ++ ",\n" ++ dumpArrItems lvl (y :: xs)

/-- Comma-and-newline separated object fields, `": "` key separator. -/
def dumpObjFields : Nat → List (String × JsonVal) → String
  | _, [] => ""
  | lvl, [(k, v)] => pad lvl ++ quoteStr k ++ ": " ++ dumpJson lvl v
  | lvl, (k, v) :: f :: fs =>
      pad lvl ++ quoteStr k ++ ": " ++ dumpJson lvl v ++ ",\n" ++
        dumpObjFields lvl (f :: fs)

end

/-- The bytes of the manifest file after one run of
`validate_and_fix_package_json` whose file initially holds `content`:
the file is rewritten with the serialized corrected document exactly
when `fixes_made` is true (lines 129-132). -/
def manifestFileAfter (d : List (String × JsonVal)) (dirName : String)
    (content : String) : List (String × JsonVal) × String × Bool :=
  let r := validate_and_fix_package_json d dirName
  (r.1, if r.2 then dumpJson 0 (JsonVal.obj r.1) else content, r.2)

/-- Character-list version of `str.startswith`, by recursion on the
pattern. -/
def startsWithChars (s p : List Char) : Bool :=
  match p with
  | [] => true
  | b :: bs =>
    match s with
    | [] => false
    | a :: as => a == b && startsWithChars as bs

/-- `version.startswith('v')` of line 160. -/
def strStartsWith (s p : String) : Bool :=
  startsWithChars s.data p.data

/-- The fixed base host of line 46. -/
def nwjs_url_base : String := "https://dl.nwjs.io"

/-- The architecture map of lines 140-146. -/
def arch_map : List (String × String) :=
  [("AMD64", "x64"), ("x86_64", "x64"), ("arm64", "arm64"),
   ("i386", "ia32"), ("x86", "ia32")]

/-- `arch_map.get(platform.machine(), 'x64')` (line 148). -/
def archOf (machine : String) : String :=
  (arch_map.lookup machine).getD "x64"

/-- The platform map of lines 151-155. -/
def platform_map : List (String × String) :=
  [("win32", "win"), ("darwin", "osx"), ("linux", "linux")]

/-- `platform_map.get(sys.platform, 'win')` (line 157). -/
def platformOf (sysPlatform : String) : String :=
  (platform_map.lookup sysPlatform).getD "win"

/-- `version if version.startswith('v') else f"v{version}"` (line 160). -/
def normalizeVersion (v : String) : String :=
  if strStartsWith v "v" then v else "v" ++ v

/-- `get_nwjs_download_url` (lines 138-172) as a pure function of the
version string, the SDK flag, `platform.machine()` and `sys.platform`.
Returns the URL and the archive filename. -/
def get_nwjs_download_url (version : String) (use_sdk : Bool)
    (machine sysPlatform : String) : String × String :=
  let arch := archOf machine
  let platform_name := platformOf sysPlatform
  let v := normalizeVersion version
  let filename :=
    (if use_sdk then "nwjs-sdk-" ++ v ++ "-" ++ platform_name ++ "-" ++ arch
     else "nwjs-" ++ v ++ "-" ++ platform_name ++ "-" ++ arch) ++
    (if platform_name == "win" then ".zip" else ".tar.gz")
  (nwjs_url_base ++ "/" ++ v ++ "/" ++ filename, filename)

/-- The wipe loop of `clean_game_directory` (lines 274-287): the target
directory's children are given with the outcome of their removal
(`true` when `rmtree`/`unlink` succeeds, `false` when it raises).  The
loop counts one removal per success, one warning per caught failure,
and never propagates an exception.  Returns `(removed_count,
warning_count)`. -/
def clean_game_directory (children : List (String × Bool)) : Nat × Nat :=
  children.foldl
    (fun acc c => if c.2 then (acc.1 + 1, acc.2) else (acc.1, acc.2 + 1))
    (0, 0)

/-- The children that survive the wipe: exactly those whose removal
failed. -/
def cleanSurvivors (children : List (String × Bool)) : List String :=
  children.filterMap (fun c => if c.2 then none else some c.1)

/-- The JS library priority list of lines 353-359. -/
def libs_order : List String :=
  ["pixi.js", "pixi-tilemap.js", "pixi-picture.js", "fpsmeter.js",
   "lz-string.js"]

/-- The core script priority list of lines 360-367. -/
def core_order : List String :=
  ["rpg_core.js", "rpg_managers.js", "rpg_objects.js", "rpg_scenes.js",
   "rpg_sprites.js", "rpg_windows.js"]

/-- One script-inclusion tag, as emitted on lines 375-377, 383-385 and
391-393: `sub` is the `src` directory part (`"js/libs/"` or `"js/"`). -/
def scriptTag (sub fname : String) : String :=
  "    <script type=\"text/javascript\" src=\"" ++ sub ++ fname ++
    "\"></script>"

/-- The script-tag list built by `create_basic_index_html` (lines
347-399).  `jsDirMissing` models `www/js` not existing; `libsFiles =
none` models `www/js/libs` not existing; the lists hold the file names
present in the respective directories. -/
def buildScriptTags (jsDirMissing : Bool) (jsFiles : List String)
    (libsFiles : Option (List String)) : List String :=
  if jsDirMissing then [scriptTag "js/" "main.js"]
  else
    let libTags :=
      match libsFiles with
      | none => []
      | some ls => (libs_order.filter ls.contains).map (scriptTag "js/libs/")
    let coreTags := (core_order.filter jsFiles.contains).map (scriptTag "js/")
    let finalTags :=
      (["plugins.js", "main.js"].filter jsFiles.contains).map (scriptTag "js/")
    let tags := libTags ++ coreTags ++ finalTags
    if tags.isEmpty then [scriptTag "js/" "main.js"] else tags

/-- The synthesized entry-point document (lines 400-422): the fixed
template around the newline-joined script tags. -/
def create_basic_index_html (tags : List String) : String :=
  "<!DOCTYPE html>\n            <html>\n            <head>\n" ++
  "                <meta charset=\"UTF-8\">\n" ++
  "                <title>RPG Game</title>\n            </head>\n" ++
  "            <body style=\"background-color: black\">\n            " ++
  String.intercalate "\n" tags ++
  "\n            </body>\n            </html>"

/-- A directory listing: file or directory names paired with an identity
token, so that "the same file is still there" and "the file was
replaced" are distinguishable. -/
abbrev Listing : Type := List (String × Nat)

/-- Existence check of a name in a listing. -/
def hasFile (fs : Listing) (n : String) : Bool :=
  fs.any (fun e => e.1 == n)

/-- Remove every entry carrying a name. -/
def dropFile (fs : Listing) (n : String) : Listing :=
  fs.filter (fun e => e.1 != n)

/-- `backup_game` (lines 215-226) acting on the listing of the target
directory's parent: the backup is the sibling named
`game_path.name + "_backup"`.  If it already exists the function
returns at once (lines 219-221); otherwise `shutil.copytree` creates it
(line 224), `freshId` being the identity of the new copy.  Returns the
backup name, the new parent listing, and whether a copy was made. -/
def backup_game (gameName : String) (siblings : Listing) (freshId : Nat) :
    String × Listing × Bool :=
  let backupName := gameName ++ "_backup"
  if hasFile siblings backupName then (backupName, siblings, false)
  else (backupName, siblings ++ [(backupName, freshId)], true)

/-- The three `sys.platform` branches of lines 464-472. -/
inductive Plat where
  | win
  | darwin
  | linux
deriving DecidableEq

/-- The ordered candidate executable names of lines 464-471. -/
def possibleExecutables : Plat → List String
  | .win => ["nw.exe", "nwjs.exe"]
  | .darwin => ["nwjs", "nw"]
  | .linux => ["nw", "nwjs"]

/-- The destination executable name (lines 466, 469, 472): the chosen
name, with `.exe` appended on Windows only. -/
def gameExeName : Plat → String → String
  | .win, n => n ++ ".exe"
  | .darwin, n => n
  | .linux, n => n

/-- The search loop of lines 475-480: the first candidate that exists. -/
def findNwExe (cands : List String) (present : String → Bool) :
    Option String :=
  cands.find? present

/-- `rename_executable` (lines 457-503) on the listing of the target
directory.  `renameRaises` is the oracle for the OS rename call of line
492 raising; the unlink of a pre-existing destination (lines 489-490)
is modelled as succeeding, and a rename whose source was just unlinked
(destination name equal to the found candidate) raises.  On any caught
exception the original candidate path is returned (line 503); on
success the renamed path is returned (line 499). -/
def rename_executable (p : Plat) (executableName : String) (fs : Listing)
    (renameRaises : Bool) : Option String × Listing :=
  match findNwExe (possibleExecutables p) (hasFile fs) with
  | none => (none, fs)
  | some nwName =>
    let destName := gameExeName p executableName
    let fs1 := if hasFile fs destName then dropFile fs destName else fs
    if renameRaises || !hasFile fs1 nwName then (some nwName, fs1)
    else
      (some destName,
       fs1.map (fun e => if e.1 == nwName then (destName, e.2) else e))

/-- The directories a pipeline event touches: the target (game)
directory, the holding area (`temp_<name>_files`), the download scratch
directory (`temp_nwjs`), and the backup copy. -/
inductive Dir where
  | game
  | temp
  | tempNwjs
  | backupDir
deriving DecidableEq

/-- Filesystem mutations performed by the pipeline, in source order:
`fixWrite` is the manifest rewrite of line 131; `backupCopy` the
`copytree` of line 224; `saveCopy` the copies of lines 240, 246 and
252; `removeChild` a successful Wiper removal (lines 279-282);
`installCopy` an Installer copy (lines 443-446); `restoreDelete` and
`restoreCopy` the pre-delete and copy-back of lines 294-324;
`writeIndexHtml` the synthesized entry point (line 425-426);
`rmtreeTemp` the holding-area removal of line 338; `unlinkDest` the
destination unlink of line 490; `renameExe` the rename of line 492;
`cleanupRemove` a Finalizer removal (lines 510-534); `mkShortcut` the
Windows shortcut of line 581-585; `rmtreeTempNwjs` the scratch removal
of line 565. -/
inductive Event where
  | fixWrite
  | backupCopy
  | saveCopy (name : String)
  | removeChild (name : String)
  | installCopy (name : String)
  | restoreDelete (name : String)
  | restoreCopy (name : String)
  | writeIndexHtml
  | rmtreeTemp
  | unlinkDest (name : String)
  | renameExe (src dst : String)
  | cleanupRemove (name : String)
  | mkShortcut
  | rmtreeTempNwjs
deriving DecidableEq

/-- The directory an event mutates. -/
def Event.targetDir : Event → Dir
  | .fixWrite => .game
  | .backupCopy => .backupDir
  | .saveCopy _ => .temp
  | .removeChild _ => .game
  | .installCopy _ => .game
  | .restoreDelete _ => .game
  | .restoreCopy _ => .game
  | .writeIndexHtml => .game
  | .rmtreeTemp => .temp
  | .unlinkDest _ => .game
  | .renameExe _ _ => .game
  | .cleanupRemove _ => .game
  | .mkShortcut => .game
  | .rmtreeTempNwjs => .tempNwjs

/-- Whether an event deletes something (as opposed to creating or
overwriting it). -/
def Event.isDeletion : Event → Bool
  | .removeChild _ => true
  | .restoreDelete _ => true
  | .rmtreeTemp => true
  | .unlinkDest _ => true
  | .cleanupRemove _ => true
  | .rmtreeTempNwjs => true
  | _ => false

/-- Whether an event mutates the target directory or a file within it. -/
def mutatesGame (e : Event) : Bool :=
  e.targetDir == Dir.game

/-- What `save_important_files` leaves in the holding area. -/
structure TempState where
  hasPackage : Bool
  hasWww : Bool
  hasIndex : Bool
deriving DecidableEq

/-- One run's environment: the state of the filesystem when the run
starts and the outcome of every fallible OS call the run may make.
`gameChildren` lists the target directory's immediate children together
with whether their removal succeeds when attempted; `tempPre*` describe
stale content of a pre-existing holding area (`mkdir(exist_ok=True)`,
line 233); `wwwHasIndex` tells whether `www/index.html` exists when the
Restorer's fallback of line 321 checks for it. -/
structure Env where
  gameExists : Bool
  hasPackageJson : Bool
  hasWww : Bool
  hasIndexHtml : Bool
  manifest : Option (List (String × JsonVal))
  dirName : String
  fixWriteFails : Bool
  backupExists : Bool
  nwjsPathSupplied : Bool
  setupOk : Bool
  mkdirTempFails : Bool
  saveCopyFails : Bool
  tempPreHasPackage : Bool
  tempPreHasWww : Bool
  tempPreHasIndex : Bool
  gameChildren : List (String × Bool)
  nwjsFiles : List String
  wwwHasIndex : Bool
  platform : Plat
  executableName : String
  renameRaises : Bool
  localeFiles : List String

/-- `validate_game_directory` (lines 81-104): existence checks in
order, then parse, then `validate_and_fix_package_json` with its write
(which may itself fail, line 134-136).  Returns the events emitted and,
on success, the manifest now on disk. -/
def validateStep (env : Env) : List Event × Option (List (String × JsonVal)) :=
  if !env.gameExists then ([], none)
  else if !env.hasPackageJson then ([], none)
  else if !env.hasWww then ([], none)
  else
    match env.manifest with
    | none => ([], none)
    | some d =>
      let r := validate_and_fix_package_json d env.dirName
      if r.2 then
        if env.fixWriteFails then ([], none) else ([Event.fixWrite], some r.1)
      else ([], some d)

/-- `save_important_files` (lines 228-268): make the holding area,
copy `package.json`, `www` and `index.html` when present, then verify
that the `package.json` and `www` copies exist in the holding area,
raising `FileNotFoundError` otherwise (lines 258-265).  A raising copy
(`saveCopyFails`) aborts at the first attempted copy. -/
def saveStep (env : Env) : List Event × Option TempState :=
  if env.mkdirTempFails then ([], none)
  else if env.saveCopyFails &&
      (env.hasPackageJson || env.hasWww || env.hasIndexHtml) then ([], none)
  else
    let evs :=
      (if env.hasPackageJson then [Event.saveCopy "package.json"] else []) ++
      (if env.hasWww then [Event.saveCopy "www"] else []) ++
      (if env.hasIndexHtml then [Event.saveCopy "index.html"] else [])
    let tHasP := env.hasPackageJson || env.tempPreHasPackage
    let tHasW := env.hasWww || env.tempPreHasWww
    let tHasI := env.hasIndexHtml || env.tempPreHasIndex
    (evs, if tHasP && tHasW then some ⟨tHasP, tHasW, tHasI⟩ else none)

/-- Whether `save_important_files` completes without raising, i.e. the
preserve-verification succeeded. -/
def saveOk (env : Env) : Bool :=
  (saveStep env).2.isSome

/-- The Wiper's events: one `removeChild` per child whose removal
succeeds (lines 276-285); failures are logged and skipped. -/
def cleanEvents (env : Env) : List Event :=
  env.gameChildren.filterMap
    (fun c => if c.2 then some (Event.removeChild c.1) else none)

/-- A child of the target directory that resisted the Wiper: later
deletion attempts on it raise as well. -/
def undeletable (env : Env) (n : String) : Bool :=
  env.gameChildren.any (fun c => c.1 == n && !c.2)

/-- Name-set union keeping the left order. -/
def addNames (base more : List String) : List String :=
  base ++ more.filter (fun n => !base.contains n)

/-- Target-directory contents after the Installer (lines 433-455):
the Wiper's survivors merged with the runtime files. -/
def installContents (env : Env) : List String :=
  addNames (cleanSurvivors env.gameChildren) env.nwjsFiles

/-- Delete-then-copy of one preserved item back into the target
directory (lines 294-318): the pre-existing destination is removed
first; if that removal raises (an undeletable survivor) the whole run
aborts, since the Restorer has no per-item handler.  Returns the events
and the new contents, or `none` on abort. -/
def restoreOne (env : Env) (contents : List String) (n : String) :
    Option (List Event × List String) :=
  if contents.contains n then
    if undeletable env n then none
    else
      some ([Event.restoreDelete n, Event.restoreCopy n],
            (contents.filter (fun m => m != n)) ++ [n])
  else some ([Event.restoreCopy n], contents ++ [n])

/-- `restore_important_files` (lines 289-341): restore `package.json`,
`www`, and `index.html` (with the `www/index.html` fallback of lines
319-329 and the synthesized entry point), re-validate the restored
manifest (lines 331-334), then delete the holding area (line 338).
Returns the events and, on success, the manifest on disk and the new
target contents. -/
def restoreStep (env : Env) (temp : TempState)
    (d1 : List (String × JsonVal)) (contents0 : List String) :
    List Event × Option ((List (String × JsonVal)) × List String) :=
  match (if temp.hasPackage then restoreOne env contents0 "package.json"
         else some ([], contents0)) with
  | none => ([], none)
  | some (e1, c1) =>
    match (if temp.hasWww then restoreOne env c1 "www"
           else some ([], c1)) with
    | none => (e1, none)
    | some (e2, c2) =>
      match (if temp.hasIndex then restoreOne env c2 "index.html"
             else if env.wwwHasIndex then
               some ([Event.restoreCopy "index.html"],
                     addNames c2 ["index.html"])
             else
               some ([Event.writeIndexHtml], addNames c2 ["index.html"])) with
      | none => (e1 ++ e2, none)
      | some (e3, c3) =>
        let r := validate_and_fix_package_json d1 env.dirName
        if temp.hasPackage && r.2 then
          if env.fixWriteFails then (e1 ++ e2 ++ e3, none)
          else
            (e1 ++ e2 ++ e3 ++ [Event.fixWrite, Event.rmtreeTemp],
             some (r.1, c3))
        else (e1 ++ e2 ++ e3 ++ [Event.rmtreeTemp], some (d1, c3))

/-- The Finalizer's rename (lines 457-503) over the name list of the
target directory; same logic as `rename_executable`, on names alone.
Returns the events, the resulting executable name (if any), and the new
contents. -/
def renameStep (env : Env) (contents : List String) :
    List Event × Option String × List String :=
  match findNwExe (possibleExecutables env.platform) contents.contains with
  | none => ([], none, contents)
  | some nwName =>
    let dest := gameExeName env.platform env.executableName
    let e1 : List Event :=
      if contents.contains dest then [Event.unlinkDest dest] else []
    let c1 :=
      if contents.contains dest then contents.filter (fun m => m != dest)
      else contents
    if env.renameRaises || !c1.contains nwName then (e1, some nwName, c1)
    else (e1 ++ [Event.renameExe nwName dest], some dest,
          (c1.filter (fun m => m != nwName)) ++ [dest])

/-- The fixed cleanup list of lines 52-79. -/
def cleanup_files : List String :=
  ["chromedriver", "chromedriver.exe", "nw_100_percent.pak",
   "nw_200_percent.pak", "ACKNOWLEDGEMENTS", "AUTHORS", "CHANGELOG.md",
   "LICENSE", "README.md", "credits.html", "payload", "debug.log", "pnacl",
   "notification_helper.exe", "chrome_100_percent.pak",
   "chrome_200_percent.pak"]

/-- `cleanup_nwjs_files` (lines 505-539): remove each cleanup-set file
present (per-item, non-fatal), then prune the locales directory down to
the retained default. -/
def cleanupStep (env : Env) (contents : List String) :
    List Event × List String :=
  let base :=
    cleanup_files.foldl
      (fun acc n =>
        if acc.2.contains n then
          if undeletable env n then acc
          else (acc.1 ++ [Event.cleanupRemove n],
                acc.2.filter (fun m => m != n))
        else acc)
      (([] : List Event), contents)
  if contents.contains "locales" then
    (base.1 ++
      (env.localeFiles.filter
        (fun n => n != "en-US.pak" && n != "en-US.pak.info")).map
        (fun n => Event.cleanupRemove ("locales/" ++ n)),
     base.2)
  else base

/-- The pipeline's reported outcome: the dictionary of lines 641-652,
reduced to success-with-executable or failure. -/
inductive PGResult where
  | ok (exe : String)
  | err
deriving DecidableEq

/-- `process_game` (lines 595-652): validate, optionally back up,
set up the runtime, preserve, wipe, install, restore, rename, clean up;
any uncaught exception is converted to the failure result by the
`except` of lines 647-652.  Returns the event trace and the outcome. -/
def process_game (env : Env) (create_backup : Bool) :
    List Event × PGResult :=
  match validateStep env with
  | (ve, none) => (ve, .err)
  | (ve, some d1) =>
    let be :=
      if create_backup then
        if env.backupExists then [] else [Event.backupCopy]
      else []
    if !env.setupOk then (ve ++ be, .err)
    else
      match saveStep env with
      | (se, none) => (ve ++ be ++ se, .err)
      | (se, some temp) =>
        let ce := cleanEvents env
        let ie := env.nwjsFiles.map Event.installCopy
        match restoreStep env temp d1 (installContents env) with
        | (re, none) => (ve ++ be ++ se ++ ce ++ ie ++ re, .err)
        | (re, some (_, c2)) =>
          let rn := renameStep env c2
          let ke := cleanupStep env rn.2.2
          let base := ve ++ be ++ se ++ ce ++ ie ++ re ++ rn.1 ++ ke.1
          match rn.2.1 with
          | none => (base, .err)
          | some exe =>
            let she :=
              if env.platform = Plat.win then [Event.mkShortcut] else []
            let te :=
              if env.nwjsPathSupplied then [] else [Event.rmtreeTempNwjs]
            (base ++ she ++ te, .ok exe)

/-- A concrete run for the amended Validator claim: directory
`My Game`, manifest lacking the identifier field. -/
def env3w : Env :=
  { gameExists := true, hasPackageJson := true, hasWww := true,
    hasIndexHtml := true,
    manifest := some [("version", JsonVal.str "1.0")],
    dirName := "My Game", fixWriteFails := false, backupExists := false,
    nwjsPathSupplied := true, setupOk := true, mkdirTempFails := false,
    saveCopyFails := false, tempPreHasPackage := false,
    tempPreHasWww := false, tempPreHasIndex := false,
    gameChildren := [("package.json", true), ("www", true)],
    nwjsFiles := ["nw"], wwwHasIndex := true, platform := Plat.linux,
    executableName := "Game", renameRaises := false, localeFiles := [] }

/-- A concrete run for the preserve-gate claim: a valid game directory
whose preserve copies raise (`saveCopyFails`), with three wipeable
children present. -/
def env1w : Env :=
  { gameExists := true, hasPackageJson := true, hasWww := true,
    hasIndexHtml := true,
    manifest := some [("name", JsonVal.str "game")],
    dirName := "Game", fixWriteFails := false, backupExists := false,
    nwjsPathSupplied := true, setupOk := true, mkdirTempFails := false,
    saveCopyFails := true, tempPreHasPackage := false,
    tempPreHasWww := false, tempPreHasIndex := false,
    gameChildren := [("package.json", true), ("www", true), ("data", true)],
    nwjsFiles := ["nw"], wwwHasIndex := true, platform := Plat.linux,
    executableName := "Game", renameRaises := false, localeFiles := [] }

/-- The ordering property claimed for the backup: scanning the trace,
the backup copy comes before any mutation of the target directory or of
the files within it (true when every target-mutating event is preceded
by `backupCopy`). -/
def claimOrderB : List Event → Bool
  | [] => true
  | e :: r =>
    if e == Event.backupCopy then true
    else if mutatesGame e then false
    else claimOrderB r

/-- The amended ordering property: every target-mutating event other
than the Validator's manifest fix-up write is preceded by the backup
copy. -/
def amendedOrderB : List Event → Bool
  | [] => true
  | e :: r =>
    if e == Event.backupCopy then true
    else if mutatesGame e && !(e == Event.fixWrite) then false
    else amendedOrderB r

/-- A run exhibiting the failure of C2 as stated: the target's manifest
lacks a usable identifier, so the Validator rewrites it — a mutation of
a file within the target directory — before `backup_game` creates the
backup.  The trace opens with the fix-up write, then the backup copy. -/
def env2c : Env :=
  { gameExists := true, hasPackageJson := true, hasWww := true,
    hasIndexHtml := true,
    manifest := some [("name", JsonVal.str "")],
    dirName := "My Game", fixWriteFails := false, backupExists := false,
    nwjsPathSupplied := true, setupOk := false, mkdirTempFails := false,
    saveCopyFails := false, tempPreHasPackage := false,
    tempPreHasWww := false, tempPreHasIndex := false,
    gameChildren := [("package.json", true), ("www", true)],
    nwjsFiles := ["nw"], wwwHasIndex := true, platform := Plat.linux,
    executableName := "Game", renameRaises := false, localeFiles := [] }

/-- A concrete successful run for the amended backup claim. -/
def env2w : Env :=
  { gameExists := true, hasPackageJson := true, hasWww := true,
    hasIndexHtml := true,
    manifest := some [("name", JsonVal.str "")],
    dirName := "My Game", fixWriteFails := false, backupExists := false,
    nwjsPathSupplied := true, setupOk := true, mkdirTempFails := false,
    saveCopyFails := false, tempPreHasPackage := false,
    tempPreHasWww := false, tempPreHasIndex := false,
    gameChildren := [("package.json", true), ("www", true)],
    nwjsFiles := ["nw", "locales"], wwwHasIndex := true,
    platform := Plat.linux, executableName := "Game",
    renameRaises := false, localeFiles := ["fr.pak", "en-US.pak"] }

/-- The manifest on disk once `validate_game_directory` succeeded. -/
def manifestAfterFix (env : Env) : List (String × JsonVal) :=
  ((validateStep env).2).getD []

/-- The holding-area state once `save_important_files` succeeded. -/
def tempAfterSave (env : Env) : TempState :=
  ((saveStep env).2).getD ⟨false, false, false⟩

/-- The target-directory contents after the Restorer. -/
def contentsAfterRestore (env : Env) : List String :=
  match (restoreStep env (tempAfterSave env) (manifestAfterFix env)
      (installContents env)).2 with
  | none => []
  | some r => r.2

/-- A run in which the user-chosen executable name coincides with the
found candidate's name (`nw` on Linux): the pre-existing destination is
unlinked — destroying the source — so the rename raises, and the
returned path is the original candidate path, which here does bear the
user-chosen name. -/
def env9c : Env :=
  { gameExists := true, hasPackageJson := true, hasWww := true,
    hasIndexHtml := true,
    manifest := some [("name", JsonVal.str "game")],
    dirName := "Game", fixWriteFails := false, backupExists := false,
    nwjsPathSupplied := true, setupOk := true, mkdirTempFails := false,
    saveCopyFails := false, tempPreHasPackage := false,
    tempPreHasWww := false, tempPreHasIndex := false,
    gameChildren := [("package.json", true), ("www", true),
                     ("index.html", true)],
    nwjsFiles := ["nw"], wwwHasIndex := true, platform := Plat.linux,
    executableName := "nw", renameRaises := false, localeFiles := [] }

/-- A concrete run for the amended rename-failure claim: the OS rename
call raises while the chosen name `Game` differs from the candidates. -/
def env9w : Env :=
  { gameExists := true, hasPackageJson := true, hasWww := true,
    hasIndexHtml := true,
    manifest := some [("name", JsonVal.str "game")],
    dirName := "Game", fixWriteFails := false, backupExists := false,
    nwjsPathSupplied := true, setupOk := true, mkdirTempFails := false,
    saveCopyFails := false, tempPreHasPackage := false,
    tempPreHasWww := false, tempPreHasIndex := false,
    gameChildren := [("package.json", true), ("www", true),
                     ("index.html", true)],
    nwjsFiles := ["nw"], wwwHasIndex := true, platform := Plat.linux,
    executableName := "Game", renameRaises := true, localeFiles := [] }

theorem normalizeVersion_hasLeadingV (v : String) :
    strStartsWith (normalizeVersion v) "v" = true := by
  unfold normalizeVersion
  by_cases h : strStartsWith v "v"
  · simp [h]
  · simp only [h, if_false]
    show startsWithChars ('v' :: v.data) ['v'] = true
    simp [startsWithChars]

/-- C4: the Fetcher's URL construction is a deterministic pure function
of version, flavor, platform token and architecture token; the five
recognized architecture raw values map to the three canonical tokens
with `x64` the default, the three platform tokens default to `win`, the
version is normalized to carry a leading `v`, and the URL is
`<base-host>/<version>/<filename>` with the `.zip` extension exactly for
the `win` platform token and `.tar.gz` otherwise. -/
theorem claim4_fetcher_url :
    (∀ (version : String) (use_sdk : Bool) (machine sysPlatform : String),
      get_nwjs_download_url version use_sdk machine sysPlatform =
        (nwjs_url_base ++ "/" ++ normalizeVersion version ++ "/" ++
          ((if use_sdk then
              "nwjs-sdk-" ++ normalizeVersion version ++ "-" ++
                platformOf sysPlatform ++ "-" ++ archOf machine
            else
              "nwjs-" ++ normalizeVersion version ++ "-" ++
                platformOf sysPlatform ++ "-" ++ archOf machine) ++
            (if platformOf sysPlatform == "win" then ".zip" else ".tar.gz")),
         (if use_sdk then
            "nwjs-sdk-" ++ normalizeVersion version ++ "-" ++
              platformOf sysPlatform ++ "-" ++ archOf machine
          else
            "nwjs-" ++ normalizeVersion version ++ "-" ++
              platformOf sysPlatform ++ "-" ++ archOf machine) ++
           (if platformOf sysPlatform == "win" then ".zip" else ".tar.gz"))) ∧
    (∀ version, strStartsWith (normalizeVersion version) "v" = true) ∧
    archOf "AMD64" = "x64" ∧ archOf "x86_64" = "x64" ∧
    archOf "arm64" = "arm64" ∧ archOf "i386" = "ia32" ∧
    archOf "x86" = "ia32" ∧
    (∀ machine, arch_map.lookup machine = none → archOf machine = "x64") ∧
    platformOf "win32" = "win" ∧ platformOf "darwin" = "osx" ∧
    platformOf "linux" = "linux" ∧
    (∀ sysPlatform, platform_map.lookup sysPlatform = none →
      platformOf sysPlatform = "win") := by
  refine ⟨fun _ _ _ _ => rfl, normalizeVersion_hasLeadingV,
    rfl, rfl, rfl, rfl, rfl, ?_, rfl, rfl, rfl, ?_⟩
  · intro machine h
    unfold archOf
    rw [h]
    rfl
  · intro sysPlatform h
    unfold platformOf
    rw [h]
    rfl

theorem claim4_fetcher_url_witness :
    archOf "mips" = "x64" ∧ platformOf "freebsd" = "win" :=
  ⟨claim4_fetcher_url.2.2.2.2.2.2.2.1 "mips" rfl,
   claim4_fetcher_url.2.2.2.2.2.2.2.2.2.2.2 "freebsd" rfl⟩

theorem clean_game_directory_foldl (children : List (String × Bool))
    (a b : Nat) :
    children.foldl
      (fun acc c => if c.2 then (acc.1 + 1, acc.2) else (acc.1, acc.2 + 1))
      (a, b) =
      (a + (children.filter (fun c => c.2)).length,
       b + (children.filter (fun c => !c.2)).length) := by
  induction children generalizing a b with
  | nil => simp
  | cons c cs ih =>
    by_cases h : c.2
    · simp [h, ih]
      omega
    · simp [h, ih]
      omega

/-- C5: the Wiper never propagates a child-removal failure: it is a
total function of the children and their removal outcomes, the reported
removed-item count equals exactly the number of children whose removal
succeeded, with one warning per failure; in particular one undeletable
file plus two deletable files yields a count of 2 and 1 warning. -/
theorem claim5_wiper_best_effort :
    (∀ children : List (String × Bool),
      clean_game_directory children =
        ((children.filter (fun c => c.2)).length,
         (children.filter (fun c => !c.2)).length)) ∧
    clean_game_directory
      [("readonly.dat", false), ("a.txt", true), ("b.txt", true)] = (2, 1) := by
  constructor
  · intro children
    unfold clean_game_directory
    rw [clean_game_directory_foldl children 0 0]
    simp
  · rfl

/-- C7: with the assets script folder holding only `plugins.js` and
`main.js` (no recognized library or core script filenames, no libs
directory), the synthesized entry-point document contains exactly two
script-inclusion tags, `plugins.js` first and `main.js` second, and the
document embeds exactly that tag list. -/
theorem claim7_two_script_tags :
    buildScriptTags false ["plugins.js", "main.js"] none =
      [scriptTag "js/" "plugins.js", scriptTag "js/" "main.js"] ∧
    create_basic_index_html
        (buildScriptTags false ["plugins.js", "main.js"] none) =
      create_basic_index_html
        [scriptTag "js/" "plugins.js", scriptTag "js/" "main.js"] :=
  ⟨rfl, rfl⟩

/-- C10: when the sibling backup path already exists, `backup_game`
performs no copy: it returns the pre-existing backup name and leaves
the parent listing unchanged, keeping the stale backup. -/
theorem claim10_stale_backup_kept (gameName : String) (siblings : Listing)
    (freshId id : Nat)
    (h : (gameName ++ "_backup", id) ∈ siblings) :
    backup_game gameName siblings freshId =
      (gameName ++ "_backup", siblings, false) := by
  unfold backup_game
  have hb : hasFile siblings (gameName ++ "_backup") = true := by
    unfold hasFile
    rw [List.any_eq_true]
    exact ⟨(gameName ++ "_backup", id), h, by simp⟩
  simp [hb]

theorem claim10_stale_backup_kept_witness :
    backup_game "Game" [("Game_backup", 7), ("Game", 1)] 99 =
      ("Game_backup", [("Game_backup", 7), ("Game", 1)], false) :=
  claim10_stale_backup_kept "Game" [("Game_backup", 7), ("Game", 1)] 99 7
    (by decide)

theorem lookupKey_nil (k : String) : lookupKey [] k = none := rfl

theorem lookupKey_cons_pos (e : String × JsonVal)
    (es : List (String × JsonVal)) (k : String) (h : (e.1 == k) = true) :
    lookupKey (e :: es) k = some e.2 := by
  unfold lookupKey
  rw [List.find?_cons_of_pos (p := fun x => x.1 == k) es h]
  rfl

theorem lookupKey_cons_neg (e : String × JsonVal)
    (es : List (String × JsonVal)) (k : String) (h : (e.1 == k) = false) :
    lookupKey (e :: es) k = lookupKey es k := by
  unfold lookupKey
  rw [List.find?_cons_of_neg (p := fun x => x.1 == k) es (by simp [h])]

theorem lookupKey_map_update_self (d : List (String × JsonVal))
    (k : String) (v : JsonVal) (h : d.any (fun e => e.1 == k) = true) :
    lookupKey (d.map (fun e => if e.1 == k then (k, v) else e)) k = some v := by
  induction d with
  | nil => simp at h
  | cons e es ih =>
    rw [List.map_cons]
    by_cases he : (e.1 == k) = true
    · simp only [he, if_true]
      rw [lookupKey_cons_pos (k, v) _ k (by simp)]
    · have he' : (e.1 == k) = false := by simpa using he
      simp only [he', Bool.false_eq_true, if_false]
      rw [lookupKey_cons_neg e _ k he']
      apply ih
      simp only [List.any_cons, he', Bool.false_or] at h
      exact h

theorem lookupKey_map_update_ne (d : List (String × JsonVal))
    (k k' : String) (v : JsonVal) (hkk : (k == k') = false) :
    lookupKey (d.map (fun e => if e.1 == k then (k, v) else e)) k' =
      lookupKey d k' := by
  induction d with
  | nil => rfl
  | cons e es ih =>
    rw [List.map_cons]
    by_cases he : (e.1 == k) = true
    · simp only [he, if_true]
      have he1 : e.1 = k := by simpa using he
      have he2 : (e.1 == k') = false := by
        rw [he1]
        exact hkk
      rw [lookupKey_cons_neg (k, v) _ k' hkk, lookupKey_cons_neg e _ k' he2]
      exact ih
    · have he' : (e.1 == k) = false := by simpa using he
      simp only [he', Bool.false_eq_true, if_false]
      by_cases he2 : (e.1 == k') = true
      · rw [lookupKey_cons_pos e _ k' he2, lookupKey_cons_pos e _ k' he2]
      · have he2' : (e.1 == k') = false := by simpa using he2
        rw [lookupKey_cons_neg e _ k' he2', lookupKey_cons_neg e _ k' he2']
        exact ih

theorem lookupKey_append_single_self (d : List (String × JsonVal))
    (k : String) (v : JsonVal)
    (hall : ∀ e ∈ d, (e.1 == k) = false) :
    lookupKey (d ++ [(k, v)]) k = some v := by
  induction d with
  | nil =>
    rw [List.nil_append]
    rw [lookupKey_cons_pos (k, v) [] k (by simp)]
  | cons e es ih =>
    rw [List.cons_append]
    rw [lookupKey_cons_neg e _ k (hall e (by simp))]
    exact ih (fun e' he' => hall e' (List.mem_cons_of_mem e he'))

theorem lookupKey_append_single_ne (d : List (String × JsonVal))
    (k k' : String) (v : JsonVal) (hkk : (k == k') = false) :
    lookupKey (d ++ [(k, v)]) k' = lookupKey d k' := by
  induction d with
  | nil =>
    rw [List.nil_append, lookupKey_cons_neg (k, v) [] k' hkk]
  | cons e es ih =>
    rw [List.cons_append]
    by_cases he : (e.1 == k') = true
    · rw [lookupKey_cons_pos e _ k' he, lookupKey_cons_pos e _ k' he]
    · have he' : (e.1 == k') = false := by simpa using he
      rw [lookupKey_cons_neg e _ k' he', lookupKey_cons_neg e _ k' he']
      exact ih

theorem lookupKey_setKey_self (d : List (String × JsonVal)) (k : String)
    (v : JsonVal) : lookupKey (setKey d k v) k = some v := by
  unfold setKey
  by_cases h : d.any (fun e => e.1 == k)
  · rw [if_pos h]
    exact lookupKey_map_update_self d k v h
  · rw [if_neg h]
    apply lookupKey_append_single_self
    intro e he
    by_contra hc
    apply h
    rw [List.any_eq_true]
    exact ⟨e, he, by simpa using hc⟩

theorem lookupKey_setKey_ne (d : List (String × JsonVal)) (k k' : String)
    (v : JsonVal) (hk : k' ≠ k) :
    lookupKey (setKey d k v) k' = lookupKey d k' := by
  have hkk : (k == k') = false := by
    simp only [beq_eq_false_iff_ne, ne_eq]
    exact fun hc => hk hc.symm
  unfold setKey
  by_cases h : d.any (fun e => e.1 == k)
  · rw [if_pos h]
    exact lookupKey_map_update_ne d k k' v hkk
  · rw [if_neg h]
    exact lookupKey_append_single_ne d k k' v hkk

theorem derivedName_ne_empty (s : String) (h : s ≠ "") :
    derivedName s ≠ "" := by
  intro hc
  apply h
  unfold derivedName at hc
  have hd : s.data.map (fun c => if c == ' ' then '-' else c.toLower) = [] := by
    have h2 := congrArg String.data hc
    simpa using h2
  have hnil : s.data = [] := List.map_eq_nil_iff.mp hd
  cases s with
  | mk data => exact congrArg String.mk hnil

theorem needsNameFix_after_fix (d : List (String × JsonVal))
    (dirName : String) (h : dirName ≠ "") :
    needsNameFix (validate_and_fix_package_json d dirName).1 = false := by
  unfold validate_and_fix_package_json
  by_cases hf : needsNameFix d = true
  · rw [if_pos hf]
    unfold needsNameFix
    rw [lookupKey_setKey_self]
    simp only [isFalsy]
    have hne := derivedName_ne_empty dirName h
    simpa using hne
  · rw [if_neg hf]
    simpa using hf

theorem manifestFileAfter_noop (d : List (String × JsonVal))
    (dirName content : String) (h : needsNameFix d = false) :
    manifestFileAfter d dirName content = (d, content, false) := by
  unfold manifestFileAfter validate_and_fix_package_json
  rw [h]
  simp

/-- C8: the Validator is idempotent: on a manifest whose identifier
field is present and non-empty it makes no change and performs no write
(the file bytes are untouched); consequently, after any run on a target
directory with a non-empty name, a second run returns the same document
and leaves the manifest file byte-identical. -/
theorem claim8_validator_idempotent (d : List (String × JsonVal))
    (content dirName : String) :
    (needsNameFix d = false →
      manifestFileAfter d dirName content = (d, content, false)) ∧
    (dirName ≠ "" →
      manifestFileAfter (manifestFileAfter d dirName content).1 dirName
          (manifestFileAfter d dirName content).2.1 =
        ((manifestFileAfter d dirName content).1,
         (manifestFileAfter d dirName content).2.1, false)) := by
  constructor
  · exact manifestFileAfter_noop d dirName content
  · intro hn
    apply manifestFileAfter_noop
    show needsNameFix (validate_and_fix_package_json d dirName).1 = false
    exact needsNameFix_after_fix d dirName hn

theorem claim8_validator_idempotent_witness :
    manifestFileAfter [("name", JsonVal.str "mygame")] "Dir" "RAW" =
      ([("name", JsonVal.str "mygame")], "RAW", false) ∧
    manifestFileAfter
        (manifestFileAfter [("version", JsonVal.str "1")] "My Game" "X").1
        "My Game"
        (manifestFileAfter [("version", JsonVal.str "1")] "My Game" "X").2.1 =
      ((manifestFileAfter [("version", JsonVal.str "1")] "My Game" "X").1,
       (manifestFileAfter [("version", JsonVal.str "1")] "My Game" "X").2.1,
       false) :=
  ⟨(claim8_validator_idempotent [("name", JsonVal.str "mygame")] "RAW"
      "Dir").1 rfl,
   (claim8_validator_idempotent [("version", JsonVal.str "1")] "X"
      "My Game").2 (by decide)⟩

/-- C3 fails as stated: at a valid target directory whose directory
name is empty (e.g. the tool invoked with `--game-path .` or `/`, where
`Path(...).name` is `''`) and whose manifest has an empty identifier,
the Validator does rewrite the manifest, yet the rewritten manifest
still carries an empty identifier — not a non-empty one. -/
theorem claim3_counterexample :
    (validate_and_fix_package_json [("name", JsonVal.str "")] "").2 = true ∧
    needsNameFix
      (validate_and_fix_package_json [("name", JsonVal.str "")] "").1 =
      true :=
  ⟨rfl, rfl⟩

/-- C3 (amended): for every valid target directory (manifest and assets
present, manifest parseable, manifest write succeeding) whose directory
name is non-empty, the Validator succeeds; and whenever the identifier
field is missing or empty, the rewritten manifest carries the non-empty
identifier derived from the directory name (spaces to hyphens, then
lower-cased), every other original field is unchanged, and the document
is rewritten as the two-space-indented rendering of the corrected
document. -/
theorem claim3_validator_amended (env : Env) (d : List (String × JsonVal))
    (content : String)
    (hg : env.gameExists = true) (hp : env.hasPackageJson = true)
    (hw : env.hasWww = true) (hm : env.manifest = some d)
    (hf : env.fixWriteFails = false) (hn : env.dirName ≠ "") :
    (validateStep env).2.isSome = true ∧
    (needsNameFix d = true →
      (validate_and_fix_package_json d env.dirName).2 = true ∧
      lookupKey (validate_and_fix_package_json d env.dirName).1 "name" =
        some (JsonVal.str (derivedName env.dirName)) ∧
      derivedName env.dirName ≠ "" ∧
      (∀ k, k ≠ "name" →
        lookupKey (validate_and_fix_package_json d env.dirName).1 k =
          lookupKey d k) ∧
      (manifestFileAfter d env.dirName content).2.1 =
        dumpJson 0
          (JsonVal.obj (validate_and_fix_package_json d env.dirName).1)) := by
  constructor
  · unfold validateStep
    rw [hg, hp, hw, hm, hf]
    simp only [Bool.not_true, Bool.false_eq_true, if_false]
    by_cases hfix : needsNameFix d = true
    · simp [validate_and_fix_package_json, hfix]
    · simp [validate_and_fix_package_json,
        Bool.not_eq_true _ ▸ hfix]
  · intro hfix
    refine ⟨?_, ?_, derivedName_ne_empty env.dirName hn, ?_, ?_⟩
    · simp [validate_and_fix_package_json, hfix]
    · simp only [validate_and_fix_package_json, hfix, if_true]
      exact lookupKey_setKey_self d "name" (JsonVal.str (derivedName env.dirName))
    · intro k hk
      simp only [validate_and_fix_package_json, hfix, if_true]
      exact lookupKey_setKey_ne d "name" k
        (JsonVal.str (derivedName env.dirName)) hk
    · simp [manifestFileAfter, validate_and_fix_package_json, hfix]

theorem claim3_validator_amended_witness :
    (validateStep env3w).2.isSome = true ∧
    lookupKey
        (validate_and_fix_package_json [("version", JsonVal.str "1.0")]
          env3w.dirName).1 "name" =
      some (JsonVal.str (derivedName env3w.dirName)) ∧
    derivedName env3w.dirName = "my-game" :=
  ⟨(claim3_validator_amended env3w [("version", JsonVal.str "1.0")] "RAW"
      rfl rfl rfl rfl rfl (by decide)).1,
   ((claim3_validator_amended env3w [("version", JsonVal.str "1.0")] "RAW"
      rfl rfl rfl rfl rfl (by decide)).2 rfl).2.1,
   by decide⟩

theorem dropFile_eq_self (fs : Listing) (n : String)
    (h : hasFile fs n = false) : dropFile fs n = fs := by
  unfold dropFile
  apply List.filter_eq_self.mpr
  intro e he
  unfold hasFile at h
  have : (e.1 == n) = false := by
    by_contra hc
    rw [List.any_eq_false] at h
    exact h e he (by simpa using hc)
  simpa using this

theorem hasFile_dropFile_ne (fs : Listing) (c d : String)
    (h1 : hasFile fs c = true) (hcd : c ≠ d) :
    hasFile (dropFile fs d) c = true := by
  unfold hasFile at h1 ⊢
  unfold dropFile
  rw [List.any_eq_true] at h1 ⊢
  obtain ⟨e, he, hec⟩ := h1
  refine ⟨e, ?_, hec⟩
  rw [List.mem_filter]
  refine ⟨he, ?_⟩
  have he1 : e.1 = c := by simpa using hec
  simp [he1, hcd]

theorem findNwExe_cons_pos (c : String) (r : List String)
    (present : String → Bool) (h : present c = true) :
    findNwExe (c :: r) present = some c := by
  unfold findNwExe
  rw [List.find?_cons_of_pos r h]

theorem rename_two_cands (p : Plat) (name c1 c2 : String) (fs : Listing)
    (hc : possibleExecutables p = [c1, c2])
    (h1 : hasFile fs c1 = true)
    (hd1 : gameExeName p name ≠ c1) :
    rename_executable p name fs false =
      (some (gameExeName p name),
       (dropFile fs (gameExeName p name)).map
         (fun e => if e.1 == c1 then (gameExeName p name, e.2) else e)) := by
  unfold rename_executable
  rw [hc, findNwExe_cons_pos c1 [c2] (hasFile fs) h1]
  simp only
  by_cases hd : hasFile fs (gameExeName p name) = true
  · rw [if_pos hd]
    have hsrc : hasFile (dropFile fs (gameExeName p name)) c1 = true :=
      hasFile_dropFile_ne fs c1 (gameExeName p name) h1
        (fun hcc => hd1 hcc.symm)
    rw [hsrc]
    simp
  · rw [if_neg hd]
    have hfs : hasFile fs (gameExeName p name) = false := by
      simpa using hd
    rw [dropFile_eq_self fs (gameExeName p name) hfs]
    rw [h1]
    simp

/-- C6 fails as stated: on Linux with both candidates `nw` and `nwjs`
present and the user-chosen name `nwjs`, the search picks `nw` (the
higher-priority candidate) and the rename overwrites the pre-existing
`nwjs` — the lower-priority candidate does not remain untouched: the
original file at `nwjs` (identity 2) is gone afterwards. -/
theorem claim6_counterexample :
    rename_executable Plat.linux "nwjs" [("nw", 1), ("nwjs", 2)] false =
      (some "nwjs", [("nwjs", 1)]) ∧
    ("nwjs", 2) ∉
      (rename_executable Plat.linux "nwjs" [("nw", 1), ("nwjs", 2)] false).2 :=
  ⟨rfl, by decide⟩

/-- C6 (amended): the Finalizer tries the platform's candidate names in
the documented fixed order and stops at the first existing match; when
both candidates exist and the user-chosen destination name differs from
both candidate names, only the higher-priority candidate is renamed
(its file now carries the destination name), the lower-priority one
remains untouched, and any pre-existing file at the destination name is
overwritten (every file left at the destination name originates from
the renamed candidate). -/
theorem claim6_finalizer_amended (p : Plat) (c1 c2 name : String)
    (fs : Listing)
    (hc : possibleExecutables p = [c1, c2])
    (h1 : hasFile fs c1 = true) (h2 : hasFile fs c2 = true)
    (hd1 : gameExeName p name ≠ c1) (hd2 : gameExeName p name ≠ c2) :
    findNwExe (possibleExecutables p) (hasFile fs) = some c1 ∧
    (rename_executable p name fs false).1 = some (gameExeName p name) ∧
    (∀ i, (c2, i) ∈ fs → (c2, i) ∈ (rename_executable p name fs false).2) ∧
    (∀ i, (c1, i) ∈ fs →
      (gameExeName p name, i) ∈ (rename_executable p name fs false).2) ∧
    (∀ i, (gameExeName p name, i) ∈ (rename_executable p name fs false).2 →
      (c1, i) ∈ fs) := by
  have h12 : c1 ≠ c2 := by
    have h' := hc
    cases p <;>
      · rw [possibleExecutables] at h'
        injection h' with ha ht
        injection ht with hb _
        subst ha
        subst hb
        decide
  have hE := rename_two_cands p name c1 c2 fs hc h1 hd1
  refine ⟨?_, ?_, ?_, ?_, ?_⟩
  · rw [hc]
    exact findNwExe_cons_pos c1 [c2] (hasFile fs) h1
  · rw [hE]
  · intro i hm
    rw [hE]
    simp only
    apply List.mem_map.mpr
    refine ⟨(c2, i), ?_, ?_⟩
    · unfold dropFile
      rw [List.mem_filter]
      refine ⟨hm, ?_⟩
      simp only [bne_iff_ne, ne_eq]
      exact fun hcc => hd2 hcc.symm
    · have : (c2 == c1) = false := by
        simp only [beq_eq_false_iff_ne, ne_eq]
        exact fun hcc => h12 hcc.symm
      simp [this]
  · intro i hm
    rw [hE]
    simp only
    apply List.mem_map.mpr
    refine ⟨(c1, i), ?_, ?_⟩
    · unfold dropFile
      rw [List.mem_filter]
      refine ⟨hm, ?_⟩
      simp only [bne_iff_ne, ne_eq]
      exact fun hcc => hd1 hcc.symm
    · simp
  · intro i hm
    rw [hE] at hm
    simp only at hm
    obtain ⟨a, ha, hfa⟩ := List.mem_map.mp hm
    obtain ⟨n, j⟩ := a
    by_cases haa : (n == c1) = true
    · simp only [haa, if_true] at hfa
      have hn : n = c1 := by simpa using haa
      have hj : j = i := by
        have := congrArg Prod.snd hfa
        simpa using this
      have hmem : (n, j) ∈ fs := List.mem_of_mem_filter ha
      rw [hn, hj] at hmem
      exact hmem
    · have haa' : (n == c1) = false := by simpa using haa
      simp only [haa', Bool.false_eq_true, if_false] at hfa
      have hn : n = gameExeName p name := by
        have := congrArg Prod.fst hfa
        simpa using this
      unfold dropFile at ha
      rw [List.mem_filter] at ha
      have := ha.2
      simp only [bne_iff_ne, ne_eq] at this
      exact absurd hn this

theorem claim6_finalizer_amended_witness :
    (rename_executable Plat.linux "Game"
        [("nw", 1), ("nwjs", 2), ("Game", 5)] false).1 = some "Game" ∧
    ("nwjs", 2) ∈ (rename_executable Plat.linux "Game"
        [("nw", 1), ("nwjs", 2), ("Game", 5)] false).2 ∧
    ("Game", 1) ∈ (rename_executable Plat.linux "Game"
        [("nw", 1), ("nwjs", 2), ("Game", 5)] false).2 :=
  have T := claim6_finalizer_amended Plat.linux "nw" "nwjs" "Game"
    [("nw", 1), ("nwjs", 2), ("Game", 5)] rfl (by decide) (by decide)
    (by decide) (by decide)
  ⟨T.2.1, T.2.2.1 2 (by decide), T.2.2.2.1 1 (by decide)⟩

theorem validateStep_events (env : Env) :
    (validateStep env).1 = [] ∨ (validateStep env).1 = [Event.fixWrite] := by
  unfold validateStep
  split
  · left; rfl
  · split
    · left; rfl
    · split
      · left; rfl
      · split
        · left; rfl
        · dsimp only
          repeat' split
          all_goals simp

theorem saveStep_events_temp (env : Env) :
    ∀ e ∈ (saveStep env).1, Event.targetDir e = Dir.temp := by
  intro e he
  unfold saveStep at he
  split at he
  · simp at he
  · split at he
    · simp at he
    · dsimp only at he
      simp only [List.mem_append] at he
      rcases he with (he | he) | he <;>
        (split at he <;> simp_all [Event.targetDir])

/-- C1: the Wiper is unreachable unless the Preserver verified its
copies: in every run in which `save_important_files` does not complete
(its copies raise, or the verification that the manifest and assets
copies exist in the holding area fails), the run aborts with the
failure result and no child of the target directory is ever deleted by
the Wiper. -/
theorem claim1_wipe_gated_by_preserve (env : Env) (cb : Bool)
    (h : saveOk env = false) :
    (process_game env cb).2 = PGResult.err ∧
    ∀ n, Event.removeChild n ∉ (process_game env cb).1 := by
  have hve := validateStep_events env
  have hse := saveStep_events_temp env
  unfold process_game
  rcases hv : validateStep env with ⟨ve, od⟩
  rw [hv] at hve
  cases od with
  | none =>
    refine ⟨rfl, ?_⟩
    intro n hm
    dsimp only at hm
    rcases hve with h0 | h0 <;> subst h0 <;> simp at hm
  | some d1 =>
    dsimp only
    cases hsb : env.setupOk with
    | false =>
      simp only [hsb, Bool.not_false, if_true]
      refine ⟨by trivial, ?_⟩
      intro n hm
      rw [List.mem_append] at hm
      rcases hm with hm | hm
      · rcases hve with h0 | h0 <;> subst h0 <;> simp at hm
      · revert hm
        split
        · split
          · simp
          · simp
        · simp
    | true =>
      simp only [hsb, Bool.not_true, Bool.false_eq_true, if_false]
      rcases hsv : saveStep env with ⟨se, ot⟩
      rw [hsv] at hse
      cases ot with
      | some t =>
        exfalso
        unfold saveOk at h
        rw [hsv] at h
        simp at h
      | none =>
        refine ⟨by trivial, ?_⟩
        intro n hm
        dsimp only at hm
        rw [List.mem_append, List.mem_append] at hm
        rcases hm with (hm | hm) | hm
        · rcases hve with h0 | h0 <;> subst h0 <;> simp at hm
        · revert hm
          split
          · split
            · simp
            · simp
          · simp
        · have hx := hse (Event.removeChild n) hm
          simp [Event.targetDir] at hx

theorem claim1_wipe_gated_by_preserve_witness :
    (process_game env1w true).2 = PGResult.err ∧
    Event.removeChild "www" ∉ (process_game env1w true).1 :=
  have T := claim1_wipe_gated_by_preserve env1w true rfl
  ⟨T.1, T.2 "www"⟩

theorem event_never_deletes_backup (e : Event) :
    ¬(e.isDeletion = true ∧ e.targetDir = Dir.backupDir) := by
  cases e <;> simp [Event.isDeletion, Event.targetDir]

theorem amendedOrderB_ve (ve : List Event)
    (hve : ve = [] ∨ ve = [Event.fixWrite]) (X : List Event) :
    amendedOrderB (ve ++ Event.backupCopy :: X) = true := by
  rcases hve with h0 | h0 <;> subst h0 <;>
    simp [amendedOrderB, mutatesGame, Event.targetDir]

/-- C2 fails as stated: with the backup option enabled, a run on a
manifest needing the identifier fix mutates `package.json` inside the
target directory before the backup copy is created, so the backup is
not created before every mutation of the target. -/
theorem claim2_counterexample :
    (process_game env2c true).1 = [Event.fixWrite, Event.backupCopy] ∧
    mutatesGame Event.fixWrite = true ∧
    claimOrderB [Event.fixWrite, Event.backupCopy] = false :=
  ⟨rfl, rfl, rfl⟩

/-- C2 (amended): when the backup option is enabled and no backup
exists yet, the backup copy is created before any mutation of the
target directory other than the Validator's manifest fix-up rewrite
(which the pipeline performs before the backup step); and no event of
any run ever deletes the backup. -/
theorem claim2_backup_amended (env : Env) (hb : env.backupExists = false) :
    amendedOrderB (process_game env true).1 = true ∧
    ∀ e ∈ (process_game env true).1,
      ¬(e.isDeletion = true ∧ e.targetDir = Dir.backupDir) := by
  refine ⟨?_, fun e _ => event_never_deletes_backup e⟩
  have hve := validateStep_events env
  unfold process_game
  rcases hv : validateStep env with ⟨ve, od⟩
  rw [hv] at hve
  cases od with
  | none =>
    dsimp only
    rcases hve with h0 | h0 <;> subst h0 <;>
      simp [amendedOrderB, mutatesGame, Event.targetDir]
  | some d1 =>
    dsimp only
    rw [hb]
    simp only [Bool.false_eq_true, if_false, eq_self_iff_true, if_true]
    repeat' split
    all_goals
      (simp only [List.append_assoc, List.singleton_append]
       exact amendedOrderB_ve ve hve _)

theorem claim2_backup_amended_witness :
    amendedOrderB (process_game env2w true).1 = true ∧
    ¬(Event.backupCopy.isDeletion = true ∧
      Event.backupCopy.targetDir = Dir.backupDir) :=
  have T := claim2_backup_amended env2w rfl
  ⟨T.1, event_never_deletes_backup Event.backupCopy⟩

/-- C9 (amended): in any run that reaches the Finalizer with a
candidate runtime executable found, if the rename raises then
`rename_executable` returns the original un-renamed candidate instead
of an error or `None`, and `process_game` reports overall success with
that candidate as the final executable — a path bearing the candidate's
name, hence differing from the user-chosen name exactly when the chosen
destination filename differs from the candidate's name. -/
theorem claim9_rename_failure_amended (env : Env) (cb : Bool) (nw : String)
    (h1 : (validateStep env).2.isSome = true)
    (h2 : env.setupOk = true)
    (h3 : saveOk env = true)
    (h4 : (restoreStep env (tempAfterSave env) (manifestAfterFix env)
        (installContents env)).2.isSome = true)
    (h5 : findNwExe (possibleExecutables env.platform)
        (contentsAfterRestore env).contains = some nw)
    (h6 : env.renameRaises = true) :
    (process_game env cb).2 = PGResult.ok nw ∧
    nw ∈ possibleExecutables env.platform := by
  refine ⟨?_, ?_⟩
  · unfold process_game
    rcases hv : validateStep env with ⟨ve, od⟩
    cases od with
    | none =>
      rw [hv] at h1
      simp at h1
    | some d1 =>
      dsimp only
      rw [h2]
      simp only [Bool.not_true, Bool.false_eq_true, if_false]
      rcases hsv : saveStep env with ⟨se, ot⟩
      cases ot with
      | none =>
        unfold saveOk at h3
        rw [hsv] at h3
        simp at h3
      | some temp =>
        have hd1 : manifestAfterFix env = d1 := by
          unfold manifestAfterFix
          rw [hv]
          rfl
        have htp : tempAfterSave env = temp := by
          unfold tempAfterSave
          rw [hsv]
          rfl
        rw [hd1, htp] at h4
        rcases hrv : restoreStep env temp d1 (installContents env)
          with ⟨re, or⟩
        cases or with
        | none =>
          rw [hrv] at h4
          simp at h4
        | some r =>
          obtain ⟨d2, c2⟩ := r
          have hc2 : contentsAfterRestore env = c2 := by
            unfold contentsAfterRestore
            rw [htp, hd1, hrv]
          rw [hc2] at h5
          dsimp only
          rw [hrv]
          dsimp only
          unfold renameStep
          rw [h5]
          dsimp only
          rw [h6]
          simp only [Bool.true_or, if_true]
  · unfold findNwExe at h5
    exact List.mem_of_find?_eq_some h5

/-- C9 fails as stated: when the rename raises after a candidate was
found, the run reports success with the original candidate path — but
with the user-chosen name `nw` equal to the candidate's name, that
final path does bear the user-chosen name. -/
theorem claim9_counterexample :
    (process_game env9c true).2 = PGResult.ok "nw" ∧
    gameExeName env9c.platform env9c.executableName = "nw" :=
  ⟨rfl, rfl⟩

theorem claim9_rename_failure_amended_witness :
    (process_game env9w true).2 = PGResult.ok "nw" ∧
    "nw" ∈ possibleExecutables env9w.platform :=
  claim9_rename_failure_amended env9w true "nw" rfl rfl rfl rfl rfl rfl
